import Mathlib

/-!
Verification of the api-bridge Operation Set interpreter
(`src/lib/Operations.js`): the JSON-like value model, the path traversal
engine (`applyOperationAt`), the leaf operations (`$set`, `$unset`, `$cast`,
`$map`, `$wrap`, `$copy`, `$move`, `$model`), the compile pass (`reformat`)
and the set-mutation API (`add`, `getIndexByTag`).

Modelling conventions (shallow embedding of the JavaScript source):
* JS values are modelled by the inductive `Js`.  Objects are ordered
  association lists, as JS objects enumerate string keys in insertion
  order.  (The JS rule that integer-like keys enumerate first is not
  modelled; no path in this development uses integer-like object keys.)
* JS numbers (IEEE doubles) are modelled as `Int ⊕ NaN` (`JsNum`): every
  numeric literal exercised by the code under analysis is integral, and
  the one numeric edge the spec discusses is `NaN`.  Fractional and
  exponent string literals therefore coerce to `nan` in this model.
* `undefined` is a first-class value (`Js.undefined`): reading an absent
  property yields it, and assigning it to a property still creates the
  property, exactly as in JS.
* Property access on `null` throws a `TypeError` in JS (the source runs
  in strict mode).  The pure model cannot throw there, so `read`/`setKey`
  /`delKey` on `Js.null` are modelled as inert; every theorem whose JS
  counterpart could reach a property access on `null` carries a
  `nullFree` hypothesis so the divergence is never exercised.
* Functions as payloads (`$func`) are not representable in a first-order
  value model; no claim concerns `$func` payloads.
-/

/-- A JS number: an integer or NaN (see the modelling conventions above). -/
inductive JsNum where
  | int (i : Int)
  | nan
deriving DecidableEq, Repr

/-- A JS value as manipulated by the operation engine. -/
inductive Js where
  | undefined
  | null
  | bool (b : Bool)
  | num (n : JsNum)
  | str (s : String)
  | arr (elems : List Js)
  | obj (fields : List (String × Js))
deriving Inhabited

namespace Js

/-- The JS `typeof` operator on modelled values (`typeof null = "object"`). -/
def typeofJs : Js → String
  | .undefined => "undefined"
  | .null => "object"
  | .bool _ => "boolean"
  | .num _ => "number"
  | .str _ => "string"
  | .arr _ => "object"
  | .obj _ => "object"

/-- `typeof v === 'object'`: true for plain objects, arrays and `null`. -/
def isObjectT : Js → Bool
  | .null => true
  | .arr _ => true
  | .obj _ => true
  | _ => false

/-- `Array.isArray`. -/
def isArrB : Js → Bool
  | .arr _ => true
  | _ => false

/-- True exactly for plain (non-array, non-null) objects. -/
def isJObj : Js → Bool
  | .obj _ => true
  | _ => false

end Js

/-- First-match lookup in an ordered association list (JS own-property get). -/
def lookupList : List (String × Js) → String → Option Js
  | [], _ => none
  | (k', v') :: rest, k => if k' = k then some v' else lookupList rest k

/-- JS property assignment on an object's field list: replace the entry in
place when the key is present, append otherwise (insertion order). -/
def setList : List (String × Js) → String → Js → List (String × Js)
  | [], k, v => [(k, v)]
  | (k', v') :: rest, k, v =>
    if k' = k then (k, v) :: rest else (k', v') :: setList rest k v

/-- JS `delete` on an object's field list: drop the entry for the key,
preserving the order of the others. -/
def delList : List (String × Js) → String → List (String × Js)
  | [], _ => []
  | (k', v') :: rest, k => if k' = k then rest else (k', v') :: delList rest k

/-- The canonical array index denoted by a string key, if any
(`arr['2']` is an element access; `arr['02']` is not). -/
def toIndex? (k : String) : Option Nat :=
  if k ≠ "" ∧ k.data.all Char.isDigit then
    let n := k.data.foldl (fun a c => a * 10 + (c.toNat - 48)) 0
    if toString n = k then some n else none
  else none

namespace Js

/-- Own-property lookup (`Object.prototype.hasOwnProperty` view): association
lookup on objects, canonical index lookup on arrays, nothing on primitives. -/
def getOwn : Js → String → Option Js
  | .obj l, k => lookupList l k
  | .arr xs, k => (toIndex? k).bind fun i => xs.get? i
  | _, _ => none

/-- JS property read `o[k]`: an absent property reads as `undefined`.
(On `Js.null` the real JS throws a `TypeError`; modelled as `undefined`.) -/
def read (o : Js) (k : String) : Js :=
  (o.getOwn k).getD .undefined

/-- JS property write `o[k] = v`.  On arrays only canonical in-range indices
are representable (out-of-range writes would extend the array; non-index
keys would become non-element properties — neither occurs in this
development).  On `Js.null` the real JS throws; modelled as inert. -/
def setKey : Js → String → Js → Js
  | .obj l, k, v => .obj (setList l k v)
  | .arr xs, k, v =>
    match toIndex? k with
    | some i => if i < xs.length then .arr (xs.set i v) else .arr xs
    | none => .arr xs
  | o, _, _ => o

/-- JS `delete o[k]`.  On arrays a delete leaves a hole that reads as
`undefined`; modelled by overwriting the element with `undefined`. -/
def delKey : Js → String → Js
  | .obj l, k => .obj (delList l k)
  | .arr xs, k =>
    match toIndex? k with
    | some i => if i < xs.length then .arr (xs.set i .undefined) else .arr xs
    | none => .arr xs
  | o, _ => o

end Js

/-- Comma-join of strings (`Array.prototype.join` with the default
separator), implemented structurally so concrete values reduce in the
kernel. -/
def joinComma : List String → String
  | [] => ""
  | [s] => s
  | s :: s2 :: rest => s ++ "," ++ joinComma (s2 :: rest)

mutual
/-- JS `String(v)` / `ToString`: `"NaN"` for NaN, element-joining for
arrays (with `null`/`undefined` elements printing as empty), and the
generic `"[object Object]"` for plain objects. -/
def jsToString : Js → String
  | .undefined => "undefined"
  | .null => "null"
  | .bool b => if b then "true" else "false"
  | .num (.int i) => toString i
  | .num .nan => "NaN"
  | .str s => s
  | .arr xs => joinComma (jsToStringElems xs)
  | .obj _ => "[object Object]"

/-- Stringification of array elements for `Array.prototype.toString`. -/
def jsToStringElems : List Js → List String
  | [] => []
  | .null :: xs => "" :: jsToStringElems xs
  | .undefined :: xs => "" :: jsToStringElems xs
  | x :: xs => jsToString x :: jsToStringElems xs
end

/-- ASCII whitespace for string trimming (the common subset of the JS
`StrWhiteSpace` grammar used here). -/
def isJsSpace (c : Char) : Bool :=
  c = ' ' || c = '\t' || c = '\n' || c = '\r' || c = '\x0b' || c = '\x0c'

/-- Trim leading and trailing whitespace from a character list. -/
def trimChars (cs : List Char) : List Char :=
  ((cs.dropWhile isJsSpace).reverse.dropWhile isJsSpace).reverse

/-- Decimal digits to a natural number. -/
def digitsToNat (cs : List Char) : Nat :=
  cs.foldl (fun a c => a * 10 + (c.toNat - 48)) 0

/-- An all-digit, nonempty character list parsed as a natural number. -/
def parseDigits : List Char → Option Nat
  | [] => none
  | cs => if cs.all Char.isDigit then some (digitsToNat cs) else none

/-- JS `ToNumber` on a string: trimmed empty is `0`, optionally signed
decimal integers parse exactly, everything else is `nan` (fractional and
exponent literals fall outside the integral number model, see above). -/
def strToNum (s : String) : JsNum :=
  match trimChars s.data with
  | [] => .int 0
  | '-' :: cs =>
    match parseDigits cs with
    | some n => .int (-(n : Int))
    | none => .nan
  | '+' :: cs =>
    match parseDigits cs with
    | some n => .int (n : Int)
    | none => .nan
  | cs =>
    match parseDigits cs with
    | some n => .int (n : Int)
    | none => .nan

/-- JS `Number(v)` (`ToNumber`): arrays and objects convert through their
string form. -/
def toNumber : Js → JsNum
  | .undefined => .nan
  | .null => .int 0
  | .bool b => .int (if b then 1 else 0)
  | .num n => n
  | .str s => strToNum s
  | .arr xs => strToNum (jsToString (.arr xs))
  | .obj l => strToNum (jsToString (.obj l))

/-- JS `Boolean(v)` (`ToBoolean`). -/
def toBoolean : Js → Bool
  | .undefined => false
  | .null => false
  | .bool b => b
  | .num (.int i) => i ≠ 0
  | .num .nan => false
  | .str s => s ≠ ""
  | .arr _ => true
  | .obj _ => true

/-- Truthiness of an optional string argument (`undefined` and `''` are
falsy, every other string truthy), as used by `add` and the `$set`/`$unset`
leaves for their `field` parameter. -/
def optTruthy : Option String → Bool
  | none => false
  | some s => s ≠ ""

/-! ## Leaf operations (module.exports of `Operations.js`) -/

/-- Leaf `$set(obj, field, value)`: a falsy field replaces the whole value;
otherwise the field is assigned when the target is object-typed. -/
def jsSet (obj : Js) (field : Option String) (v : Js) : Js :=
  if ¬ optTruthy field then v
  else if obj.isObjectT then obj.setKey (field.getD "") v
  else obj

/-- Leaf `$unset(obj, field)`: a falsy field unsets the whole value
(returns `undefined`); otherwise the field is deleted when the target is
object-typed. -/
def jsUnset (obj : Js) (field : Option String) : Js :=
  if ¬ optTruthy field then .undefined
  else if obj.isObjectT then obj.delKey (field.getD "")
  else obj

/-- Leaf `$cast(obj, type)`: `undefined` is returned unchanged ("cannot
cast nothing"); otherwise the raw JS conversion for the named type, with
no NaN normalization. -/
def jsCast (obj : Js) (ty : String) : Js :=
  match obj with
  | .undefined => .undefined
  | o =>
    if ty = "number" then .num (toNumber o)
    else if ty = "string" then .str (jsToString o)
    else if ty = "boolean" then .bool (toBoolean o)
    else o

/-- The legacy primitive `cast(value, type)` helper from the earlier
revision appended to `Operations.js`: for `number` it normalizes a NaN
result to `null` (`isNaN(value) ? null : Number(value)`), and an unknown
type name falls through to `undefined`. -/
def castLegacy (v : Js) (ty : String) : Js :=
  if ty = "number" then
    match toNumber v with
    | .nan => .null
    | n => .num n
  else if ty = "string" then .str (jsToString v)
  else if ty = "boolean" then .bool (toBoolean v)
  else .undefined

/-- Leaf `$map(obj, map)`: look the value up in the table by its string
key; absent keys fall back to reading the table's `''` entry, which is
`undefined` when no such entry exists. -/
def jsMap (obj : Js) (table : Js) : Js :=
  match table.getOwn (jsToString obj) with
  | some x => x
  | none => table.read ""

/-- Leaf `$wrap(obj, wrapper)`: a string wrapper builds a single-key
object, any other wrapper a one-element array. -/
def jsWrap (obj : Js) (wrapper : Js) : Js :=
  match wrapper with
  | .str s => .obj [(s, obj)]
  | _ => .arr [obj]

/-- Leaf `$func` applies the supplied function; kept for completeness of
the vocabulary (function payloads are not representable, see above). -/
def jsFunc (obj : Js) (f : Js → Js) : Js :=
  f obj

/-! ## Path parsing and the traversal engine -/

/-- `OperationSet.parsePath`: `'.'` is the root (no segments); otherwise
split on dots, dropping empty segments. -/
def splitDotsAux : List Char → List Char → List String
  | [], acc => [⟨acc.reverse⟩]
  | c :: cs, acc =>
    if c = '.' then ⟨acc.reverse⟩ :: splitDotsAux cs []
    else splitDotsAux cs (c :: acc)

/-- `path.split('.')` for the single-character separator. -/
def splitDots (s : String) : List String :=
  splitDotsAux s.data []

def parsePath (path : String) : List String :=
  if path = "." then []
  else (splitDots path).filter (· ≠ "")

/-- `OperationSet.applyOperationAt(op, obj, keys, args)` with the leaf
operation's extra arguments already applied: a non-object with remaining
keys is returned unchanged (best-effort policy); an exhausted key list
applies the leaf; the wildcard `$` over an array broadcasts over the
elements; otherwise the traversal reassigns `obj[key]` with the recursive
result. -/
def applyOperationAt (op : Js → Js) : List String → Js → Js
  | [], o => op o
  | k :: rest, o =>
    if ¬ o.isObjectT then o
    else
      match o with
      | .arr xs =>
        if k = "$" then .arr (xs.map (applyOperationAt op rest))
        else (Js.arr xs).setKey k (applyOperationAt op rest ((Js.arr xs).read k))
      | o => o.setKey k (applyOperationAt op rest (o.read k))

/-- `applyOperationAt` for a fallible leaf (`$model` raises on unregistered
names); the traversal structure is identical, failures propagate. -/
def applyOperationAtE {ε : Type} (op : Js → Except ε Js) :
    List String → Js → Except ε Js
  | [], o => op o
  | k :: rest, o =>
    if ¬ o.isObjectT then .ok o
    else
      match o with
      | .arr xs =>
        if k = "$" then (xs.mapM (applyOperationAtE op rest)).map .arr
        else (applyOperationAtE op rest ((Js.arr xs).read k)).map ((Js.arr xs).setKey k)
      | o => (applyOperationAtE op rest (o.read k)).map (o.setKey k)

/-! ## The `$copy` / `$move` engine -/

/-- The common-prefix trimming performed by `reformat` on a
`$copy`/`$move` record: shift the shared leading segments of the source
and destination paths into a common root. -/
def trimCommon : List String → List String → List String × List String × List String
  | a :: fs, b :: ts =>
    if a = b then
      let (c, fr, tr) := trimCommon fs ts
      (a :: c, fr, tr)
    else ([], a :: fs, b :: ts)
  | f, t => ([], f, t)

/-- The extraction loop of `$copy` once trimming has stopped: drill down
the remaining source keys from the cursor; abort (`none`) when an
intermediate is not object-typed; at the last key either keep the source
(copy: `cloneDeep`, the identity in a pure model) or delete it (move).
Returns the updated cursor subtree and the clipboard value. -/
def copyExtract : Js → List String → Bool → Option (Js × Js)
  | _, [], _ => none
  | cur, [k], keep =>
    if keep then some (cur, cur.read k)
    else some (cur.delKey k, cur.read k)
  | cur, k :: k2 :: rest, keep =>
    let c := cur.read k
    if ¬ c.isObjectT then none
    else (copyExtract c (k2 :: rest) keep).map fun p => (cur.setKey k p.1, p.2)

/-- The destination walk of `$copy`: descend the destination keys from the
cursor, overwriting a non-object (or array) intermediate with a fresh
empty object, and assign the clipboard at the last key. -/
def copyDest : Js → List String → Js → Js
  | cur, [], _ => cur
  | cur, [k], clip => cur.setKey k clip
  | cur, k :: k2 :: rest, clip =>
    let c := cur.read k
    let c' := if c.isObjectT ∧ ¬ c.isArrB then c else .obj []
    cur.setKey k (copyDest c' (k2 :: rest) clip)

/-- Outcome of the `$copy` main loop relative to the original root:
`abort` returns the root unchanged, `replaceRoot` returns the clipboard as
the whole result (`toKeys` exhausted), `sub` yields the rewritten cursor
subtree. -/
inductive CopyOut where
  | abort
  | replaceRoot (v : Js)
  | sub (v : Js)

/-- The `$copy` loop: while trimming, compare `fromKeys[i]` against the
already-shifted `toKeys` at absolute index `i` (faithful to the source,
where `toKeys.shift()` runs under an index that keeps advancing), descend
the cursor and abort on a non-object; on the first mismatch switch to
extraction, then either return the clipboard (empty destination) or run
the destination walk. -/
def copyLoop (cur : Js) : List String → Nat → List String → Bool → CopyOut
  | [], _, t, _ =>
    if t.isEmpty then .replaceRoot cur else .sub (copyDest cur t cur)
  | k :: rest, i, t, keep =>
    if t.get? i = some k then
      let c := cur.read k
      if ¬ c.isObjectT then .abort
      else
        match copyLoop c rest (i + 1) (t.drop 1) keep with
        | .abort => .abort
        | .replaceRoot v => .replaceRoot v
        | .sub v => .sub (cur.setKey k v)
    else
      match copyExtract cur (k :: rest) keep with
      | none => .abort
      | some (cur', clip) =>
        if t.isEmpty then .replaceRoot clip else .sub (copyDest cur' t clip)

/-- Leaf `$copy(obj, fromKeys, toKeys, __keepSource)`: non-objects are
returned unchanged; otherwise run the trim/extract/destination loop.
`cloneDeep` is the identity in this pure model. -/
def jsCopy (obj : Js) (fromKeys toKeys : List String) (keep : Bool) : Js :=
  if ¬ obj.isObjectT then obj
  else
    match copyLoop obj fromKeys 0 toKeys keep with
    | .abort => obj
    | .replaceRoot v => v
    | .sub v => v

/-- Leaf `$move`: `$copy` with `__keepSource = false`. -/
def jsMove (obj : Js) (fromKeys toKeys : List String) : Js :=
  jsCopy obj fromKeys toKeys false

/-! ## Errors, compiled steps and the compile pass (`reformat`) -/

/-- The error taxonomy crossing the operation-set boundary:
`FormattingError` (grammar of the declarative set), `InvalidOperationError`
(payload shapes / unregistered models), and the stack exhaustion a cyclic
model registry would produce in JS. -/
inductive JsError where
  | formatting (msg : String)
  | invalidOperation (msg : String)
  | stackOverflow
deriving DecidableEq, Repr

/-- One compiled step of `this.__operations`: the dispatched operation
name with its traversal prefix (`field`) and leaf arguments (`args`). -/
inductive Step where
  | set (field : List String) (lastKey : Option String) (v : Js)
  | unset (field : List String) (lastKey : Option String)
  | copy (field fromRest toRest : List String)
  | move (field fromRest toRest : List String)
  | cast (field : List String) (ty : String)
  | wrap (field : List String) (wrapper : Js)
  | map (field : List String) (table : Js)
  | model (field : List String) (name : String)

/-- An operation record: a JS object mapping operation keys to payloads.
Function payloads (`$func`) are outside the value model. -/
def OpRecord := List (String × Js)

/-- The `TYPES` constant. -/
def TYPES : List String := ["number", "string", "boolean"]

/-- `Object.keys`-style enumeration over a payload: object fields in
order, array indices as string keys.  (`Object.keys(null)` throws in JS;
it is unreachable through `reformat`'s cases as modelled.) -/
def jsEntries : Js → List (String × Js)
  | .obj l => l
  | .arr xs => (xs.enum).map fun p => (toString p.1, p.2)
  | _ => []

/-- Whether every element of a payload array is a string
(`!ops[key].some(o => typeof o !== 'string')`). -/
def allStrings : List Js → Option (List String)
  | [] => some []
  | .str s :: rest => (allStrings rest).map (s :: ·)
  | _ => none

/-- The `reformat` switch for one operation key: validates the payload's
shape and compiles it to steps, or raises.  Unknown keys are a
`FormattingError`; payload-shape violations are `InvalidOperationError`s —
both at compile (construction/mutation) time.  `$model` only warns on an
unregistered name (the lookup is deferred to `process`). -/
def reformatKey (key : String) (payload : Js) : Except JsError (List Step) :=
  match key with
  | "$set" =>
    if payload.typeofJs ≠ "object" ∨ payload.isArrB then
      .error (.invalidOperation ("Invalid value for $set. Expected object, got " ++ payload.typeofJs))
    else
      .ok ((jsEntries payload).map fun p =>
        let fieldArr := parsePath p.1
        .set fieldArr.dropLast fieldArr.getLast? p.2)
  | "$unset" =>
    match payload with
    | .str s =>
      .ok [.unset (parsePath s).dropLast (parsePath s).getLast?]
    | .arr xs =>
      match allStrings xs with
      | some ss => .ok (ss.map fun s => .unset (parsePath s).dropLast (parsePath s).getLast?)
      | none => .error (.invalidOperation "Invalid value for $unset. Expected string or array of strings")
    | _ => .error (.invalidOperation "Invalid value for $unset. Expected string or array of strings")
  | "$tag" =>
    match payload with
    | .str _ => .ok []
    | _ => .error (.invalidOperation ("Invalid value for $tag. Expected string, got " ++ payload.typeofJs))
  | "$move" =>
    if payload.typeofJs ≠ "object" then
      .error (.invalidOperation ("Invalid value for $move. Expected object, got " ++ payload.typeofJs))
    else
      (jsEntries payload).mapM fun p =>
        match p.2 with
        | .str d =>
          let (c, fr, tr) := trimCommon (parsePath p.1) (parsePath d)
          .ok (.move c fr tr)
        | _ => .error (.invalidOperation ("Invalid destination for $move. Expected string, got " ++ p.2.typeofJs))
  | "$copy" =>
    if payload.typeofJs ≠ "object" then
      .error (.invalidOperation ("Invalid value for $copy. Expected object, got " ++ payload.typeofJs))
    else
      (jsEntries payload).mapM fun p =>
        match p.2 with
        | .str d =>
          let (c, fr, tr) := trimCommon (parsePath p.1) (parsePath d)
          .ok (.copy c fr tr)
        | _ => .error (.invalidOperation ("Invalid destination for $copy. Expected string, got " ++ p.2.typeofJs))
  | "$cast" =>
    if payload.typeofJs ≠ "object" then
      .error (.invalidOperation ("Invalid value for $cast. Expected object, got " ++ payload.typeofJs))
    else
      (jsEntries payload).mapM fun p =>
        match p.2 with
        | .str ty =>
          if ty ∈ TYPES then .ok (.cast (parsePath p.1) ty)
          else .error (.invalidOperation ("Invalid type value for $cast. Expected `string`, `number` or `boolean`, got " ++ ty))
        | v => .error (.invalidOperation ("Invalid type value for $cast. Expected `string`, `number` or `boolean`, got " ++ jsToString v))
  | "$wrap" =>
    match
      ((match payload with
        | .str s => .ok [(".", Js.str s)]
        | .arr xs => .ok [(".", Js.arr xs)]
        | j =>
          if j.typeofJs = "object" then .ok (jsEntries j)
          else .error (JsError.invalidOperation ("Invalid value for $wrap. Expected string, array or object, got " ++ j.typeofJs))) :
        Except JsError (List (String × Js))) with
    | .error e => .error e
    | .ok tmp =>
      tmp.mapM fun p =>
        match p.2 with
        | .str s => .ok (.wrap (parsePath p.1) (.str s))
        | .arr xs => .ok (.wrap (parsePath p.1) (.arr xs))
        | w => .error (.invalidOperation ("Invalid value for $wrap. Expected string or array, got " ++ w.typeofJs))
  | "$map" =>
    if payload.typeofJs ≠ "object" then
      .error (.invalidOperation ("Invalid value for $map. Expected object, got " ++ payload.typeofJs))
    else
      (jsEntries payload).mapM fun p =>
        if p.2.typeofJs = "object" then .ok (.map (parsePath p.1) p.2)
        else .error (.invalidOperation ("Invalid map in $map. Expected object, got " ++ p.2.typeofJs ++ " at key " ++ p.1))
  | "$func" =>
    if payload.typeofJs = "object" then
      (jsEntries payload).mapM fun p =>
        .error (.invalidOperation ("Invalid value for $func. Expected function, got " ++ p.2.typeofJs ++ " at key " ++ p.1))
    else
      .error (.invalidOperation ("Invalid value for $func. Expected function, got " ++ payload.typeofJs))
  | "$model" =>
    match
      ((match payload with
        | .str s => .ok [(".", Js.str s)]
        | .arr xs => .ok [(".", Js.arr xs)]
        | j =>
          if j.typeofJs = "object" then .ok (jsEntries j)
          else .error (JsError.invalidOperation ("Invalid format for $model. Expected array, string or object, got " ++ j.typeofJs))) :
        Except JsError (List (String × Js))) with
    | .error e => .error e
    | .ok tmp =>
      (tmp.mapM (fun (p : String × Js) =>
        (match p.2 with
         | .str s => .ok [Step.model (parsePath p.1) s]
         | .arr xs =>
           match allStrings xs with
           | some ss => .ok (ss.map (Step.model (parsePath p.1)))
           | none => .error (JsError.invalidOperation ("Invalid value for $model. Expected string or string array, got " ++ payload.typeofJs))
         | _ => .error (JsError.invalidOperation ("Invalid value for $model. Expected string or string array, got " ++ payload.typeofJs)) :
         Except JsError (List Step)))).map List.flatten
  | k => .error (.formatting ("Invalid operation: " ++ k))

/-- Compile one operation record: each key in order through the switch,
concatenating the produced steps. -/
def reformatRecord (rec : OpRecord) : Except JsError (List Step) :=
  rec.foldlM (fun acc kv => (reformatKey kv.1 kv.2).map (acc ++ ·)) []

/-- `OperationSet.reformat`: recompile the whole record list into
`__operations`, raising the first formatting / invalid-operation error. -/
def reformat (recs : List OpRecord) : Except JsError (List Step) :=
  recs.foldlM (fun acc r => (reformatRecord r).map (acc ++ ·)) []

/-- The `OperationSet` constructor: store the records and `reformat`
(the compiled steps are the observable result; a raised error escapes the
constructor). -/
def constructOS (recs : List OpRecord) : Except JsError (List Step) :=
  reformat recs

/-! ## Process: running compiled steps -/

/-- The model registry (`this.models`): names to compiled operation sets. -/
def Registry := List (String × List Step)

/-- Registry lookup. -/
def lookupReg : Registry → String → Option (List Step)
  | [], _ => none
  | (k', v') :: rest, k => if k' = k then some v' else lookupReg rest k

/-- Run one compiled step, given a runner for `$model` sub-invocations:
the pure leaves never fail; `$model` dispatches through the runner. -/
def runStep (mr : String → Js → Except JsError Js) (obj : Js) :
    Step → Except JsError Js
  | .set f lastKey v => .ok (applyOperationAt (fun o => jsSet o lastKey v) f obj)
  | .unset f lastKey => .ok (applyOperationAt (fun o => jsUnset o lastKey) f obj)
  | .copy f fr tr => .ok (applyOperationAt (fun o => jsCopy o fr tr true) f obj)
  | .move f fr tr => .ok (applyOperationAt (fun o => jsCopy o fr tr false) f obj)
  | .cast f ty => .ok (applyOperationAt (fun o => jsCast o ty) f obj)
  | .wrap f w => .ok (applyOperationAt (fun o => jsWrap o w) f obj)
  | .map f tbl => .ok (applyOperationAt (fun o => jsMap o tbl) f obj)
  | .model f name => applyOperationAtE (mr name) f obj

/-- Thread a value through a list of compiled steps (`process`'s loop). -/
def runSteps (mr : String → Js → Except JsError Js) :
    List Step → Js → Except JsError Js
  | [], obj => .ok obj
  | s :: rest, obj => (runStep mr obj s).bind (runSteps mr rest)

/-- The `$model` leaf with a recursion budget: an unregistered name is an
`InvalidOperationError` (checked before any recursion); a registered one
runs the named set's steps.  Exhausted fuel models the stack overflow a
cyclic registry would produce. -/
def modelRunner (reg : Registry) : Nat → String → Js → Except JsError Js
  | 0, name, _ =>
    match lookupReg reg name with
    | none => .error (.invalidOperation "Invalid model in $model. Must be instance of OperationSet")
    | some _ => .error .stackOverflow
  | fuel + 1, name, o =>
    match lookupReg reg name with
    | none => .error (.invalidOperation "Invalid model in $model. Must be instance of OperationSet")
    | some sub => runSteps (modelRunner reg fuel) sub o

/-- `OperationSet.process(obj)`: run the compiled steps in order against
the shared registry, with a recursion budget for nested `$model` calls. -/
def processE (fuel : Nat) (reg : Registry) (steps : List Step) (obj : Js) :
    Except JsError Js :=
  runSteps (modelRunner reg fuel) steps obj

/-! ## Operation-set mutation: `getIndexByTag` and `add` -/

/-- `OperationSet.getIndexByTag`: the index of the **last** record whose
`$tag` equals the given tag (the source scans from the end), `none` when
absent. -/
def getIndexByTag : List OpRecord → String → Option Nat
  | [], _ => none
  | r :: rs, t =>
    match getIndexByTag rs t with
    | some i => some (i + 1)
    | none =>
      match lookupList r "$tag" with
      | some (.str s) => if s = t then some 0 else none
      | _ => none

/-- The positional options of `add` (`at` is a Lean keyword, hence
`at_`).  Non-number `at` / non-string `before`/`after` arguments raise
`TypeError`s in JS and are not representable here. -/
structure AddOpts where
  at_ : Option Int := none
  after : Option String := none
  before : Option String := none

/-- `Array.prototype.splice(i, 0, ...new)` for a non-negative index
(indices past the end append). -/
def spliceIn (l : List OpRecord) (i : Nat) (new : List OpRecord) : List OpRecord :=
  l.take i ++ new ++ l.drop i

/-- The insertion phase of `OperationSet.add`: resolve the index (a
truthy `after`/`before` tag that matches nothing is a `FormattingError`,
raised before any mutation), then splice — note the faithful quirk that
the `after`-offset applies whenever `after` is truthy, even when the
index came from `at`. -/
def addRecords (ops : List OpRecord) (newOps : List OpRecord) (o : AddOpts) :
    Except JsError (List OpRecord) :=
  let idx : Except JsError Int :=
    match o.at_ with
    | some n => .ok n
    | none =>
      if optTruthy o.after ∨ optTruthy o.before then
        let t := if optTruthy o.after then o.after.getD "" else o.before.getD ""
        match getIndexByTag ops t with
        | none => .error (.formatting ("Cannot find operation with $tag of " ++ t))
        | some i => .ok (i : Int)
      else .ok (-1)
  idx.map fun i =>
    if 0 ≤ i then
      if optTruthy o.after then spliceIn ops (i.toNat + 1) newOps
      else spliceIn ops i.toNat newOps
    else ops ++ newOps

/-- `OperationSet.add` in full: insert, then `reformat`.  The first
component is the record list the set holds afterwards — on a `reformat`
failure the inserted records **remain** (the source validates after
mutating); on a pre-insertion failure the list is unchanged. -/
def addFull (ops : List OpRecord) (newOps : List OpRecord) (o : AddOpts) :
    List OpRecord × Except JsError (List Step) :=
  match addRecords ops newOps o with
  | .error e => (ops, .error e)
  | .ok ops' => (ops', reformat ops')

/-! ## Path-level helper notions used to state the claims -/

/-- Read the value at a path (absent steps read as `undefined`). -/
def getPathD (o : Js) (p : List String) : Js :=
  p.foldl Js.read o

/-- A path resolves strictly in a value: every step starts from a plain
object that owns the key (the final value is unconstrained).  This is the
"path resolves" notion of the spec's traversal invariant, restricted to
object descent. -/
def pathResolves : Js → List String → Bool
  | _, [] => true
  | o, k :: ks =>
    o.isJObj &&
      match o.getOwn k with
      | some v => pathResolves v ks
      | none => false

mutual
/-- No `null` anywhere in a value (see the modelling conventions: JS
throws on property access through `null`, which the pure model cannot). -/
def nullFree : Js → Bool
  | .undefined => true
  | .null => false
  | .bool _ => true
  | .num _ => true
  | .str _ => true
  | .arr xs => nullFreeElems xs
  | .obj l => nullFreeFields l

/-- `nullFree` over array elements. -/
def nullFreeElems : List Js → Bool
  | [] => true
  | x :: xs => nullFree x && nullFreeElems xs

/-- `nullFree` over object fields. -/
def nullFreeFields : List (String × Js) → Bool
  | [] => true
  | (_, v) :: l => nullFree v && nullFreeFields l
end

/-- The clean functional update at a path: rebuild the spine, assign the
final key on the parent, leave every other entry untouched.  This is the
specification-side description of what a resolving `set` traversal does. -/
def setPathFn : Js → List String → String → Js → Js
  | o, [], k, v => o.setKey k v
  | o, s :: ss, k, v => o.setKey s (setPathFn (o.read s) ss k v)

/-- The clean functional delete at a path: rebuild the spine and delete
the final key on its parent. -/
def delPath : Js → List String → Js
  | o, [] => o
  | o, [k] => o.delKey k
  | o, k :: k2 :: ks => o.setKey k (delPath (o.read k) (k2 :: ks))

/-- The pipeline-level `$copy`/`$move` operation on dot-paths as compiled
by `reformat`: trim the common prefix, then traverse it and run the copy
engine with the trimmed source/destination lists. -/
def copyAtPath (root : Js) (f t : List String) (keep : Bool) : Js :=
  match trimCommon f t with
  | (c, fr, tr) => applyOperationAt (fun o => jsCopy o fr tr keep) c root

/-- The pipeline-level `$unset` operation on a path as compiled by
`reformat`: traverse to the parent and unset the last segment. -/
def unsetAtPath (root : Js) (p : List String) : Js :=
  applyOperationAt (fun o => jsUnset o p.getLast?) p.dropLast root

/-! ## Basic lemmas about the object model -/

theorem lookupList_setList_self (l : List (String × Js)) (k : String) (v : Js) :
    lookupList (setList l k v) k = some v := by
  induction l with
  | nil => simp [setList, lookupList]
  | cons h t ih =>
    obtain ⟨k', v'⟩ := h
    by_cases hk : k' = k
    · simp [setList, hk, lookupList]
    · simp [setList, hk, lookupList, ih]

theorem lookupList_setList_ne (l : List (String × Js)) (k k' : String) (v : Js)
    (h : k' ≠ k) : lookupList (setList l k v) k' = lookupList l k' := by
  induction l with
  | nil => simp [setList, lookupList, Ne.symm h]
  | cons hd t ih =>
    obtain ⟨k₀, v₀⟩ := hd
    by_cases hk : k₀ = k
    · subst hk
      simp [setList, lookupList, Ne.symm h]
    · simp only [setList, if_neg hk, lookupList]
      by_cases hk' : k₀ = k'
      · simp [hk']
      · simp [hk', ih]

theorem setList_setList_self (l : List (String × Js)) (k : String) (x y : Js) :
    setList (setList l k x) k y = setList l k y := by
  induction l with
  | nil => simp [setList]
  | cons hd t ih =>
    obtain ⟨k₀, v₀⟩ := hd
    by_cases hk : k₀ = k
    · simp [setList, hk]
    · simp [setList, hk, ih]

theorem setList_comm (l : List (String × Js)) (a b : String) (x y : Js)
    (h : a ≠ b) (ha : lookupList l a ≠ none) :
    setList (setList l a x) b y = setList (setList l b y) a x := by
  induction l with
  | nil => simp [lookupList] at ha
  | cons hd t ih =>
    obtain ⟨k₀, v₀⟩ := hd
    by_cases hka : k₀ = a
    · subst hka
      simp [setList, h]
    · by_cases hkb : k₀ = b
      · subst hkb
        simp [setList, hka, h]
      · simp only [lookupList, if_neg hka] at ha
        simp [setList, hka, hkb, ih ha]

theorem delList_setList_ne (l : List (String × Js)) (a b : String) (x : Js)
    (h : a ≠ b) : delList (setList l a x) b = setList (delList l b) a x := by
  induction l with
  | nil => simp [setList, delList, h]
  | cons hd t ih =>
    obtain ⟨k₀, v₀⟩ := hd
    by_cases hka : k₀ = a
    · subst hka
      simp [setList, delList, h]
    · by_cases hkb : k₀ = b
      · subst hkb
        simp [setList, delList, hka, Ne.symm hka]
      · simp [setList, delList, hka, hkb, ih]

theorem lookupList_delList_ne (l : List (String × Js)) (k k' : String)
    (h : k' ≠ k) : lookupList (delList l k) k' = lookupList l k' := by
  induction l with
  | nil => simp [delList]
  | cons hd t ih =>
    obtain ⟨k₀, v₀⟩ := hd
    by_cases hk : k₀ = k
    · subst hk
      simp [delList, lookupList, Ne.symm h]
    · simp only [delList, if_neg hk, lookupList]
      by_cases hk' : k₀ = k'
      · simp [hk']
      · simp [hk', ih]

theorem setList_lookup_self (l : List (String × Js)) (k : String) (v : Js)
    (h : lookupList l k = some v) : setList l k v = l := by
  induction l with
  | nil => simp [lookupList] at h
  | cons hd t ih =>
    obtain ⟨k₀, v₀⟩ := hd
    by_cases hk : k₀ = k
    · subst hk
      simp [lookupList] at h
      simp [setList, h]
    · simp [lookupList, hk] at h
      simp [setList, hk, ih h]

/-! Js-level corollaries on plain objects. -/

theorem getOwn_setKey_self (l : List (String × Js)) (k : String) (v : Js) :
    (Js.obj l |>.setKey k v).getOwn k = some v := by
  simp [Js.setKey, Js.getOwn, lookupList_setList_self]

theorem getOwn_setKey_ne (l : List (String × Js)) (k k' : String) (v : Js)
    (h : k' ≠ k) : (Js.obj l |>.setKey k v).getOwn k' = (Js.obj l).getOwn k' := by
  simp [Js.setKey, Js.getOwn, lookupList_setList_ne _ _ _ _ h]

theorem read_setKey_self (l : List (String × Js)) (k : String) (v : Js) :
    (Js.obj l |>.setKey k v).read k = v := by
  simp [Js.read, getOwn_setKey_self]

theorem read_setKey_ne (l : List (String × Js)) (k k' : String) (v : Js)
    (h : k' ≠ k) : (Js.obj l |>.setKey k v).read k' = (Js.obj l).read k' := by
  simp [Js.read, getOwn_setKey_ne _ _ _ _ h]

theorem setKey_setKey_self (l : List (String × Js)) (k : String) (x y : Js) :
    ((Js.obj l).setKey k x).setKey k y = (Js.obj l).setKey k y := by
  simp [Js.setKey, setList_setList_self]

theorem setKey_comm_obj (l : List (String × Js)) (a b : String) (x y : Js)
    (h : a ≠ b) (ha : lookupList l a ≠ none) :
    ((Js.obj l).setKey a x).setKey b y = ((Js.obj l).setKey b y).setKey a x := by
  simp [Js.setKey, setList_comm _ _ _ _ _ h ha]

theorem delKey_setKey_ne (l : List (String × Js)) (a b : String) (x : Js)
    (h : a ≠ b) :
    ((Js.obj l).setKey a x).delKey b = ((Js.obj l).delKey b).setKey a x := by
  simp [Js.setKey, Js.delKey, delList_setList_ne _ _ _ _ h]

theorem getOwn_delKey_ne (l : List (String × Js)) (k k' : String)
    (h : k' ≠ k) : ((Js.obj l).delKey k).getOwn k' = (Js.obj l).getOwn k' := by
  simp [Js.delKey, Js.getOwn, lookupList_delList_ne _ _ _ h]

theorem setKey_read_self (l : List (String × Js)) (k : String) (v : Js)
    (h : lookupList l k = some v) : (Js.obj l).setKey k v = Js.obj l := by
  simp [Js.setKey, setList_lookup_self _ _ _ h]

/-! ## Claim C1: `$map` default fallback -/

/-- C1 counterexample: the claim says a `$map` lookup with no matching key
and no `""` default returns the value unchanged; on the code, `$map`
returns `map['']`, i.e. `undefined`, so `5` under an empty table maps to
`undefined`, not `5`. -/
theorem c1_map_no_default_counterexample :
    jsMap (.num (.int 5)) (.obj []) = .undefined ∧ Js.undefined ≠ Js.num (.int 5) := by
  exact ⟨rfl, by simp⟩

/-- C1 amended: `map(v, table)` returns `table[k]` for the coerced string
key `k` when present; otherwise it returns the `""` entry when present;
otherwise it returns `undefined` (the read of the absent `""` key) — not
`v` unchanged. -/
theorem c1_map_lookup_amended (v : Js) (l : List (String × Js)) :
    (∀ x, lookupList l (jsToString v) = some x → jsMap v (.obj l) = x) ∧
    (lookupList l (jsToString v) = none →
      ∀ d, lookupList l "" = some d → jsMap v (.obj l) = d) ∧
    (lookupList l (jsToString v) = none → lookupList l "" = none →
      jsMap v (.obj l) = .undefined) := by
  refine ⟨fun x hx => ?_, fun hn d hd => ?_, fun hn hd => ?_⟩
  · simp [jsMap, Js.getOwn, hx]
  · simp [jsMap, Js.getOwn, hn, Js.read, hd]
  · simp [jsMap, Js.getOwn, hn, Js.read, hd]

/-- C1 witness: the three arms of the amended statement at concrete
tables. -/
theorem c1_map_lookup_amended_witness :
    jsMap (.str "a") (.obj [("a", .num (.int 1))]) = .num (.int 1) ∧
    jsMap (.str "b") (.obj [("", .str "d")]) = .str "d" ∧
    jsMap (.str "b") (.obj []) = .undefined := by
  refine ⟨(c1_map_lookup_amended (.str "a") [("a", .num (.int 1))]).1 _ rfl,
    (c1_map_lookup_amended (.str "b") [("", .str "d")]).2.1 rfl _ rfl,
    (c1_map_lookup_amended (.str "b") []).2.2 rfl rfl⟩

/-! ## Claim C2: `$cast` NaN policy -/

/-- C2 counterexample: the claim says the cast leaf normalizes NaN to
`null`, so `cast("abc","number")` is `null`; the current `$cast` leaf
returns the raw `Number` conversion, i.e. NaN, which is not `null`. -/
theorem c2_cast_nan_counterexample :
    jsCast (.str "abc") "number" = .num .nan ∧ Js.num JsNum.nan ≠ Js.null := by
  exact ⟨rfl, by simp⟩

/-- C2 amended: the `$cast` leaf with type `number` returns `Number(v)`
unnormalized for any defined value (so `"abc"` casts to NaN); the
NaN-to-`null` normalization exists only in the legacy `cast` helper of
the earlier revision, where `cast("abc","number")` is `null`. -/
theorem c2_cast_number_amended :
    (∀ v : Js, v ≠ .undefined → jsCast v "number" = .num (toNumber v)) ∧
    jsCast (.str "abc") "number" = .num .nan ∧
    castLegacy (.str "abc") "number" = .null ∧
    (∀ v : Js, toNumber v = .nan → castLegacy v "number" = .null) := by
  refine ⟨fun v hv => ?_, rfl, rfl, fun v hv => ?_⟩
  · cases v with
    | undefined => exact absurd rfl hv
    | null => rfl
    | bool b => rfl
    | num n => rfl
    | str s => rfl
    | arr xs => rfl
    | obj l => rfl
  · simp [castLegacy, hv]

/-- C2 witness for the quantified arms of the amended statement. -/
theorem c2_cast_number_amended_witness :
    jsCast (.str "6") "number" = .num (toNumber (.str "6")) ∧
    castLegacy .undefined "number" = .null := by
  exact ⟨c2_cast_number_amended.1 (.str "6") (by simp),
    c2_cast_number_amended.2.2.2 .undefined (by decide)⟩

/-! ## Claim C3: `$model` with an unregistered name -/

/-- C3: constructing a set whose `$model` record names an unregistered
procedure succeeds (the compile pass only warns), and every `process`
call raises `InvalidOperationError` while the name remains unregistered,
for any recursion budget and input value. -/
theorem c3_missing_model_fail_fast :
    constructOS [[("$model", .obj [(".", .str "missingProc")])]]
        = .ok [Step.model [] "missingProc"] ∧
    ∀ (fuel : Nat) (reg : Registry) (obj : Js),
      lookupReg reg "missingProc" = none →
      processE fuel reg [Step.model [] "missingProc"] obj
        = .error (.invalidOperation
            "Invalid model in $model. Must be instance of OperationSet") := by
  refine ⟨rfl, fun fuel reg obj h => ?_⟩
  cases fuel with
  | zero =>
    simp [processE, runSteps, runStep, applyOperationAtE, modelRunner, h, Except.bind]
  | succ n =>
    simp [processE, runSteps, runStep, applyOperationAtE, modelRunner, h, Except.bind]

/-- C3 witness: empty registry, depth budget 3, empty object input. -/
theorem c3_missing_model_fail_fast_witness :
    processE 3 [] [Step.model [] "missingProc"] (.obj [])
      = .error (.invalidOperation
          "Invalid model in $model. Must be instance of OperationSet") :=
  c3_missing_model_fail_fast.2 3 [] (.obj []) rfl

/-! ## Claim C4: validation tiers at construction vs process -/

/-- C4 counterexample: the claim says payload shapes are not deep-checked
at construction and that a `$cast` payload naming a type outside
number/string/boolean surfaces only during `process`; in fact the
constructor's `reformat` raises `InvalidOperationError` for it
immediately. -/
theorem c4_construction_checks_payload_counterexample :
    constructOS [[("$cast", .obj [("f", .str "float")])]]
      = .error (.invalidOperation
          "Invalid type value for $cast. Expected `string`, `number` or `boolean`, got float") := by
  exact rfl

/-- C4 amended: construction validates both the operation vocabulary
(unknown keys are `FormattingError`s) and payload top-level shapes (a bad
`$cast` type name or a non-object `$set` payload raise
`InvalidOperationError` already in the constructor); only `$model`'s
registry resolution is deferred to `process`. -/
theorem c4_two_tier_validation_amended :
    constructOS [[("$cast", .obj [("f", .str "float")])]]
      = .error (.invalidOperation
          "Invalid type value for $cast. Expected `string`, `number` or `boolean`, got float") ∧
    constructOS [[("$set", .str "x")]]
      = .error (.invalidOperation "Invalid value for $set. Expected object, got string") ∧
    constructOS [[("$bogus", .num (.int 1))]]
      = .error (.formatting "Invalid operation: $bogus") ∧
    constructOS [[("$model", .obj [(".", .str "missing")])]]
      = .ok [Step.model [] "missing"] := by
  exact ⟨rfl, rfl, rfl, rfl⟩

/-! ## Claim C5: `add` atomicity on validation failure -/

/-- C5 counterexample: the claim says a failed `add` leaves the operation
list exactly as before; adding a record with an unknown key to an empty
set raises, yet the list afterwards contains the invalid record. -/
theorem c5_add_not_atomic_counterexample :
    (addFull [] [[("$bogus", .num (.int 1))]] {}).2
        = .error (.formatting "Invalid operation: $bogus") ∧
    (addFull [] [[("$bogus", .num (.int 1))]] {}).1
        = [[("$bogus", .num (.int 1))]] ∧
    ([[("$bogus", Js.num (.int 1))]] : List OpRecord) ≠ [] := by
  refine ⟨rfl, rfl, by simp⟩

/-- C5 amended: `add` (with no positional options) inserts first and
validates afterwards: when the combined list fails `reformat`, the error
is raised synchronously by `add` but the set retains the inserted
records. -/
theorem c5_add_inserts_then_validates (ops newOps : List OpRecord) (e : JsError)
    (h : reformat (ops ++ newOps) = .error e) :
    addFull ops newOps {} = (ops ++ newOps, .error e) := by
  simp [addFull, addRecords, optTruthy, Except.map, h]

/-- C5 witness: the amended statement at the concrete failing add. -/
theorem c5_add_inserts_then_validates_witness :
    addFull [] [[("$bogus", .num (.int 1))]] {}
      = ([[("$bogus", .num (.int 1))]], .error (.formatting "Invalid operation: $bogus")) :=
  c5_add_inserts_then_validates [] [[("$bogus", .num (.int 1))]] _ rfl

/-! ## Claim C10: destination-prefix `$copy`/`$move` replaces the root -/

/-- C10: calling the exported `$copy` (or `$move`) directly with a
destination list that the internal trimming empties — the destination a
proper prefix of the source, as in `$copy(obj, ['sub','field'], ['sub'])`
— returns the extracted source value as the whole result instead of
assigning it under the destination parent. -/
theorem c10_copy_empty_dest_replaces_root (l s : List (String × Js)) (v : Js)
    (keep : Bool)
    (hsub : lookupList l "sub" = some (.obj s))
    (hfield : lookupList s "field" = some v) :
    jsCopy (.obj l) ["sub", "field"] ["sub"] keep = v := by
  have hread : (Js.obj l).read "sub" = .obj s := by
    simp [Js.read, Js.getOwn, hsub]
  have hreadf : (Js.obj s).read "field" = v := by
    simp [Js.read, Js.getOwn, hfield]
  cases keep with
  | true => simp [jsCopy, copyLoop, copyExtract, hread, hreadf, Js.isObjectT]
  | false => simp [jsCopy, copyLoop, copyExtract, hread, hreadf, Js.isObjectT]

/-- C10 witness: a two-field source object under `sub`. -/
theorem c10_copy_empty_dest_replaces_root_witness :
    jsCopy (.obj [("sub", .obj [("field", .num (.int 7)), ("o", .str "x")])])
        ["sub", "field"] ["sub"] true = .num (.int 7) :=
  c10_copy_empty_dest_replaces_root _ _ _ true rfl rfl

/-! ## Claim C9: tag-based insertion ordering -/

theorem getIndexByTag_none (ops : List OpRecord) (t : String)
    (h : ∀ r ∈ ops, lookupList r "$tag" ≠ some (.str t)) :
    getIndexByTag ops t = none := by
  induction ops with
  | nil => rfl
  | cons r rs ih =>
    have hr := h r (by simp)
    have hrest := ih (fun r' hr' => h r' (by simp [hr']))
    simp only [getIndexByTag, hrest]
    cases hl : lookupList r "$tag" with
    | none => simp
    | some v =>
      cases v with
      | str s =>
        have : s ≠ t := fun hs => hr (by rw [hl, hs])
        simp [this]
      | undefined => simp
      | null => simp
      | bool b => simp
      | num n => simp
      | arr xs => simp
      | obj l => simp

theorem getIndexByTag_last (pre post : List OpRecord) (r : OpRecord) (t : String)
    (hr : lookupList r "$tag" = some (.str t))
    (hpost : ∀ r' ∈ post, lookupList r' "$tag" ≠ some (.str t)) :
    getIndexByTag (pre ++ r :: post) t = some pre.length := by
  induction pre with
  | nil =>
    simp only [List.nil_append, getIndexByTag, getIndexByTag_none post t hpost, hr]
    simp
  | cons p pre' ih =>
    simp only [List.cons_append, getIndexByTag, List.append_eq]
    rw [ih]
    simp

theorem addFull_after_idx (ops newOps : List OpRecord) (t : String) (i : Nat)
    (ht : t ≠ "") (hidx : getIndexByTag ops t = some i) :
    addFull ops newOps { after := some t }
      = (spliceIn ops (i + 1) newOps, reformat (spliceIn ops (i + 1) newOps)) := by
  have h1 : addRecords ops newOps { after := some t }
      = .ok (spliceIn ops (i + 1) newOps) := by
    simp [addRecords, optTruthy, ht, hidx, Except.map]
  simp [addFull, h1]

theorem addFull_before_idx (ops newOps : List OpRecord) (t : String) (i : Nat)
    (ht : t ≠ "") (hidx : getIndexByTag ops t = some i) :
    addFull ops newOps { before := some t }
      = (spliceIn ops i newOps, reformat (spliceIn ops i newOps)) := by
  have h1 : addRecords ops newOps { before := some t }
      = .ok (spliceIn ops i newOps) := by
    simp [addRecords, optTruthy, ht, hidx, Except.map]
  simp [addFull, h1]

theorem spliceIn_after (pre post newOps : List OpRecord) (r : OpRecord) :
    spliceIn (pre ++ r :: post) (pre.length + 1) newOps
      = pre ++ r :: (newOps ++ post) := by
  have hsplit : pre ++ r :: post = (pre ++ [r]) ++ post := by simp
  simp only [spliceIn, hsplit, List.take_left' (by simp : (pre ++ [r]).length = pre.length + 1),
    List.drop_left' (by simp : (pre ++ [r]).length = pre.length + 1)]
  simp

theorem spliceIn_before (pre post newOps : List OpRecord) (r : OpRecord) :
    spliceIn (pre ++ r :: post) pre.length newOps
      = pre ++ (newOps ++ r :: post) := by
  simp only [spliceIn, List.take_left' (rfl : pre.length = pre.length),
    List.drop_left' (rfl : pre.length = pre.length)]
  simp

/-- C9: `add {after: t}` inserts the new records immediately after the
last record tagged `t`, `add {before: t}` immediately before it, and a
tag carried by no record raises a `FormattingError`; concretely, with
records tagged `first`, `third`, adding a `second`-tagged record after
`first` yields the order `first, second, third`. -/
theorem c9_add_tag_insertion :
    (∀ (pre post newOps : List OpRecord) (r : OpRecord) (t : String),
      t ≠ "" →
      lookupList r "$tag" = some (.str t) →
      (∀ r' ∈ post, lookupList r' "$tag" ≠ some (.str t)) →
      (addFull (pre ++ r :: post) newOps { after := some t }).1
          = pre ++ r :: (newOps ++ post) ∧
      (addFull (pre ++ r :: post) newOps { before := some t }).1
          = pre ++ (newOps ++ r :: post)) ∧
    (∀ (ops newOps : List OpRecord) (t : String), t ≠ "" →
      (∀ r ∈ ops, lookupList r "$tag" ≠ some (.str t)) →
      addFull ops newOps { after := some t }
        = (ops, .error (.formatting ("Cannot find operation with $tag of " ++ t)))) ∧
    (addFull [[("$tag", .str "first")], [("$tag", .str "third")]]
        [[("$tag", .str "second")]] { after := some "first" }).1
      = [[("$tag", .str "first")], [("$tag", .str "second")], [("$tag", .str "third")]] := by
  refine ⟨fun pre post newOps r t ht hr hpost => ?_, fun ops newOps t ht hnone => ?_, ?_⟩
  · have hidx := getIndexByTag_last pre post r t hr hpost
    constructor
    · rw [addFull_after_idx _ _ _ _ ht hidx]
      exact spliceIn_after pre post newOps r
    · rw [addFull_before_idx _ _ _ _ ht hidx]
      exact spliceIn_before pre post newOps r
  · have hidx := getIndexByTag_none ops t hnone
    simp [addFull, addRecords, optTruthy, ht, hidx, Except.map]
  · rfl

/-- C9 witness: the quantified arms applied to the `first`/`third`
example, with the tag hypotheses discharged concretely. -/
theorem c9_add_tag_insertion_witness :
    (addFull [[("$tag", .str "first")], [("$tag", .str "third")]]
        [[("$tag", .str "x")]] { before := some "third" }).1
      = [[("$tag", .str "first")], [("$tag", .str "x")], [("$tag", .str "third")]] ∧
    addFull [[("$tag", .str "first")]] [[("$tag", .str "x")]] { after := some "zzz" }
      = ([[("$tag", .str "first")]],
         .error (.formatting "Cannot find operation with $tag of zzz")) := by
  constructor
  · exact (c9_add_tag_insertion.1 [[("$tag", .str "first")]] [] [[("$tag", .str "x")]]
      [("$tag", .str "third")] "third" (by simp) rfl (by simp)).2
  · exact c9_add_tag_insertion.2.1 [[("$tag", .str "first")]] [[("$tag", .str "x")]]
      "zzz" (by simp) (by simp [lookupList])

/-! ## Claim C7: best-effort traversal on primitive / missing branches -/

/-- C7 counterexample: the claim says a branch whose non-terminal segment
is missing is left with exactly its original keys; traversing `x.y` into
an empty object reassigns `obj['x']` with the recursion's `undefined`,
creating the key `x`. -/
theorem c7_missing_branch_creates_key_counterexample :
    applyOperationAt (fun o => jsSet o (some "z") (.num (.int 1))) ["x", "y"] (.obj [])
        = .obj [("x", .undefined)] ∧
    Js.obj [("x", Js.undefined)] ≠ Js.obj [] := by
  exact ⟨rfl, by simp⟩

/-- C7 amended: for any leaf operation, (i) a non-object value with
remaining path is returned unchanged with no error; (ii) a branch whose
next segment is **missing** comes back unchanged except that the missing
key is created on its parent with value `undefined`; (iii) a branch whose
next segment holds a non-object (in the `typeof` sense, so non-`null`)
primitive is returned fully unchanged.  (A `null` at a non-terminal
segment is outside this statement: JS `typeof null === 'object'` lets the
traversal descend and the property access throws a `TypeError`.) -/
theorem c7_best_effort_amended (op : Js → Js) :
    (∀ (keys : List String) (o : Js), keys ≠ [] → o.isObjectT = false →
      applyOperationAt op keys o = o) ∧
    (∀ (k : String) (rest : List String) (l : List (String × Js)),
      rest ≠ [] → lookupList l k = none →
      applyOperationAt op (k :: rest) (.obj l) = (Js.obj l).setKey k .undefined) ∧
    (∀ (k : String) (rest : List String) (l : List (String × Js)) (p : Js),
      rest ≠ [] → lookupList l k = some p → p.isObjectT = false →
      applyOperationAt op (k :: rest) (.obj l) = .obj l) := by
  have habort : ∀ (keys : List String) (o : Js), keys ≠ [] → o.isObjectT = false →
      applyOperationAt op keys o = o := by
    intro keys o hk ho
    cases keys with
    | nil => exact absurd rfl hk
    | cons k rest => simp [applyOperationAt, ho]
  refine ⟨habort, fun k rest l hrest hnone => ?_, fun k rest l p hrest hsome hp => ?_⟩
  · have hread : (Js.obj l).read k = .undefined := by simp [Js.read, Js.getOwn, hnone]
    have hrec : applyOperationAt op rest .undefined = .undefined :=
      habort rest .undefined hrest rfl
    simp [applyOperationAt, Js.isObjectT, hread, hrec]
  · have hread : (Js.obj l).read k = p := by simp [Js.read, Js.getOwn, hsome]
    have hrec : applyOperationAt op rest p = p := habort rest p hrest hp
    simp [applyOperationAt, Js.isObjectT, hread, hrec, setKey_read_self l k p hsome]

/-- C7 witness: the three amended arms at concrete values (a number at a
non-terminal segment, a missing segment, a string-valued segment). -/
theorem c7_best_effort_amended_witness :
    applyOperationAt (fun o => jsUnset o (some "q")) ["a"] (.num (.int 3)) = .num (.int 3) ∧
    applyOperationAt (fun o => jsSet o (some "q") (.str "v")) ["x", "y"] (.obj [])
        = (Js.obj []).setKey "x" .undefined ∧
    applyOperationAt (fun o => jsSet o (some "q") (.str "v")) ["k", "y"]
        (.obj [("k", .num (.int 5))]) = .obj [("k", .num (.int 5))] := by
  refine ⟨(c7_best_effort_amended _).1 ["a"] _ (by simp) rfl,
    (c7_best_effort_amended _).2.1 "x" ["y"] [] (by simp) rfl,
    (c7_best_effort_amended _).2.2 "k" ["y"] _ (.num (.int 5)) (by simp) rfl rfl⟩

/-! ## Claim C6: wildcard broadcast of a `set` leaf -/

theorem getPathD_cons (o : Js) (s : String) (ss : List String) :
    getPathD o (s :: ss) = getPathD (o.read s) ss := rfl

theorem pathResolves_cons {o : Js} {s : String} {ss : List String}
    (h : pathResolves o (s :: ss) = true) :
    ∃ l sub, o = .obj l ∧ lookupList l s = some sub ∧ pathResolves sub ss = true := by
  cases o with
  | obj l =>
    simp only [pathResolves, Js.isJObj, Bool.true_and, Js.getOwn] at h
    cases hls : lookupList l s with
    | none => rw [hls] at h; exact absurd h (by simp)
    | some sub => rw [hls] at h; exact ⟨l, sub, rfl, hls, h⟩
  | undefined => simp [pathResolves, Js.isJObj] at h
  | null => simp [pathResolves, Js.isJObj] at h
  | bool b => simp [pathResolves, Js.isJObj] at h
  | num n => simp [pathResolves, Js.isJObj] at h
  | str s' => simp [pathResolves, Js.isJObj] at h
  | arr xs => simp [pathResolves, Js.isJObj] at h

theorem read_of_lookup {l : List (String × Js)} {s : String} {sub : Js}
    (h : lookupList l s = some sub) : (Js.obj l).read s = sub := by
  simp [Js.read, Js.getOwn, h]

/-- A resolving `set` traversal is exactly the clean functional update. -/
theorem applyOperationAt_set_resolves (k : String) (v : Js) (hk : k ≠ "") :
    ∀ (rest : List String) (o : Js), pathResolves o rest = true →
      (getPathD o rest).isJObj = true →
      applyOperationAt (fun x => jsSet x (some k) v) rest o = setPathFn o rest k v := by
  intro rest
  induction rest with
  | nil =>
    intro o _ hobj
    cases o with
    | obj l => simp [applyOperationAt, jsSet, optTruthy, hk, Js.isObjectT, setPathFn]
    | undefined => simp [getPathD, Js.isJObj] at hobj
    | null => simp [getPathD, Js.isJObj] at hobj
    | bool b => simp [getPathD, Js.isJObj] at hobj
    | num n => simp [getPathD, Js.isJObj] at hobj
    | str s => simp [getPathD, Js.isJObj] at hobj
    | arr xs => simp [getPathD, Js.isJObj] at hobj
  | cons s ss ih =>
    intro o hres hobj
    obtain ⟨l, sub, rfl, hls, hres'⟩ := pathResolves_cons hres
    have hread := read_of_lookup hls
    have hobj' : (getPathD sub ss).isJObj = true := by
      rw [getPathD_cons, hread] at hobj; exact hobj
    simp only [applyOperationAt, setPathFn, hread]
    rw [ih sub hres' hobj']
    simp [Js.isObjectT]

/-- Frame property of the functional update along the spine: at every
depth `i` of the path, keys other than the path's next segment (and, at
the parent, other than the target key) are untouched. -/
theorem setPathFn_frame (k : String) (v : Js) :
    ∀ (rest : List String) (o : Js), pathResolves o rest = true →
      (getPathD o rest).isJObj = true →
      ((∀ (i : Nat) (hi : i < rest.length) (k' : String), k' ≠ rest.get ⟨i, hi⟩ →
        (getPathD (setPathFn o rest k v) (rest.take i)).getOwn k'
          = (getPathD o (rest.take i)).getOwn k') ∧
       (∀ k' : String, k' ≠ k →
        (getPathD (setPathFn o rest k v) rest).getOwn k'
          = (getPathD o rest).getOwn k')) := by
  intro rest
  induction rest with
  | nil =>
    intro o _ hobj
    refine ⟨fun i hi => absurd hi (by simp), fun k' hk' => ?_⟩
    cases o with
    | obj l => exact getOwn_setKey_ne l k k' v hk'
    | undefined => simp [getPathD, Js.isJObj] at hobj
    | null => simp [getPathD, Js.isJObj] at hobj
    | bool b => simp [getPathD, Js.isJObj] at hobj
    | num n => simp [getPathD, Js.isJObj] at hobj
    | str s => simp [getPathD, Js.isJObj] at hobj
    | arr xs => simp [getPathD, Js.isJObj] at hobj
  | cons s ss ih =>
    intro o hres hobj
    obtain ⟨l, sub, rfl, hls, hres'⟩ := pathResolves_cons hres
    have hread := read_of_lookup hls
    have hobj' : (getPathD sub ss).isJObj = true := by
      rw [getPathD_cons, hread] at hobj; exact hobj
    constructor
    · intro i hi k' hk'
      cases i with
      | zero =>
        simp only [List.take_zero, getPathD]
        simp only [List.get] at hk'
        exact getOwn_setKey_ne l s k' _ hk'
      | succ j =>
        have hj : j < ss.length := by simpa using hi
        simp only [List.take_succ_cons, setPathFn, hread, getPathD_cons,
          read_setKey_self l s (setPathFn sub ss k v)]
        exact (ih sub hres' hobj').1 j hj k' (by simpa using hk')
    · intro k' hk'
      simp only [setPathFn, hread, getPathD_cons,
        read_setKey_self l s (setPathFn sub ss k v)]
      exact (ih sub hres' hobj').2 k' hk'

/-- C6 counterexample: the claim says elements whose remaining path does
not resolve are returned unchanged; broadcasting `set` over `$.a.b` into
`[{}]` creates the key `a` (with value `undefined`) on the element. -/
theorem c6_wildcard_unresolved_counterexample :
    applyOperationAt (fun x => jsSet x (some "b") (.num (.int 1))) ["$", "a"]
        (.arr [.obj []]) = .arr [.obj [("a", .undefined)]] ∧
    Js.arr [Js.obj [("a", Js.undefined)]] ≠ Js.arr [Js.obj []] := by
  exact ⟨rfl, by simp⟩

/-- C6 amended: a wildcard `set` broadcast maps the traversal over the
elements (hence an array of the same length); each element whose
remaining path resolves to an object parent becomes exactly the clean
functional update (the target field set, every sibling key at every
depth untouched); a non-object element is returned unchanged; but an
element failing at a **missing** segment may gain that key with value
`undefined` (it is not always returned unchanged). -/
theorem c6_wildcard_set_broadcast (arr : List Js) (rest : List String)
    (k : String) (v : Js) :
    applyOperationAt (fun x => jsSet x (some k) v) ("$" :: rest) (.arr arr)
        = .arr (arr.map (applyOperationAt (fun x => jsSet x (some k) v) rest)) ∧
    (arr.map (applyOperationAt (fun x => jsSet x (some k) v) rest)).length
        = arr.length ∧
    (k ≠ "" → ∀ o, pathResolves o rest = true → (getPathD o rest).isJObj = true →
      applyOperationAt (fun x => jsSet x (some k) v) rest o = setPathFn o rest k v) ∧
    (∀ o : Js, o.isObjectT = false → rest ≠ [] →
      applyOperationAt (fun x => jsSet x (some k) v) rest o = o) ∧
    (∀ o, pathResolves o rest = true → (getPathD o rest).isJObj = true →
      (∀ (i : Nat) (hi : i < rest.length) (k' : String), k' ≠ rest.get ⟨i, hi⟩ →
        (getPathD (setPathFn o rest k v) (rest.take i)).getOwn k'
          = (getPathD o (rest.take i)).getOwn k') ∧
      (∀ k' : String, k' ≠ k →
        (getPathD (setPathFn o rest k v) rest).getOwn k'
          = (getPathD o rest).getOwn k')) := by
  refine ⟨by simp [applyOperationAt, Js.isObjectT], by simp,
    fun hk o hres hobj => applyOperationAt_set_resolves k v hk rest o hres hobj,
    fun o ho hrest => ?_, fun o hres hobj => setPathFn_frame k v rest o hres hobj⟩
  cases rest with
  | nil => exact absurd rfl hrest
  | cons s ss => simp [applyOperationAt, ho]

/-- C6 witness: the resolving and non-object arms at concrete inputs. -/
theorem c6_wildcard_set_broadcast_witness :
    applyOperationAt (fun x => jsSet x (some "b") (.str "u")) ["a"]
        (.obj [("a", .obj [("c", .num (.int 2))])])
      = setPathFn (.obj [("a", .obj [("c", .num (.int 2))])]) ["a"] "b" (.str "u") ∧
    applyOperationAt (fun x => jsSet x (some "b") (.str "u")) ["a"] (.num (.int 9))
      = .num (.int 9) := by
  refine ⟨(c6_wildcard_set_broadcast [] ["a"] "b" (.str "u")).2.2.1 (by simp) _ rfl rfl,
    (c6_wildcard_set_broadcast [] ["a"] "b" (.str "u")).2.2.2.1 _ rfl (by simp)⟩

/-! ## Claim C8: move / copy duality -/

theorem isObjectT_of_isJObj {o : Js} (h : o.isJObj = true) : o.isObjectT = true := by
  cases o <;> simp_all [Js.isJObj, Js.isObjectT]

theorem applyOperationAt_cons_obj (op : Js → Js) (k : String) (rest : List String)
    (l : List (String × Js)) :
    applyOperationAt op (k :: rest) (.obj l)
      = (Js.obj l).setKey k (applyOperationAt op rest ((Js.obj l).read k)) := by
  simp [applyOperationAt, Js.isObjectT]

theorem trimCommon_append : ∀ (f t : List String),
    (trimCommon f t).1 ++ (trimCommon f t).2.1 = f ∧
    (trimCommon f t).1 ++ (trimCommon f t).2.2 = t := by
  intro f
  induction f with
  | nil => intro t; cases t <;> simp [trimCommon]
  | cons a fs ih =>
    intro t
    cases t with
    | nil => simp [trimCommon]
    | cons b ts =>
      by_cases hab : a = b
      · subst hab
        have := ih ts
        simp only [trimCommon, if_pos rfl]
        constructor
        · simpa using this.1
        · simpa using this.2
      · simp [trimCommon, hab]

theorem trimCommon_head_ne : ∀ (f t c fr tr : List String),
    trimCommon f t = (c, fr, tr) → fr ≠ [] → tr ≠ [] → fr.head? ≠ tr.head? := by
  intro f
  induction f with
  | nil =>
    intro t c fr tr h hfr _
    cases t with
    | nil => cases h; exact absurd rfl hfr
    | cons b ts => cases h; exact absurd rfl hfr
  | cons a fs ih =>
    intro t c fr tr h hfr htr
    cases t with
    | nil => cases h; exact absurd rfl htr
    | cons b ts =>
      by_cases hab : a = b
      · subst hab
        simp only [trimCommon, eq_self_iff_true, if_true] at h
        cases h
        exact ih ts _ _ _ rfl hfr htr
      · simp only [trimCommon, if_neg hab] at h
        cases h
        simp [hab]

theorem copyExtract_resolves : ∀ (p : List String) (cur : Js), p ≠ [] →
    pathResolves cur p = true →
    copyExtract cur p true = some (cur, getPathD cur p) ∧
    copyExtract cur p false = some (delPath cur p, getPathD cur p) := by
  intro p
  induction p with
  | nil => intro cur h; exact absurd rfl h
  | cons k rest ih =>
    intro cur _ hres
    obtain ⟨l, sub, rfl, hls, hres'⟩ := pathResolves_cons hres
    have hread := read_of_lookup hls
    cases rest with
    | nil =>
      refine ⟨rfl, ?_⟩
      simp [copyExtract, delPath, getPathD]
    | cons k2 rest' =>
      have hsubobj : sub.isObjectT = true := by
        obtain ⟨l', _, rfl, _, _⟩ := pathResolves_cons hres'
        rfl
      have hih := ih sub (by simp) hres'
      constructor
      · simp [copyExtract, hread, hsubobj, hih.1, getPathD_cons,
          setKey_read_self l k sub hls]
      · simp [copyExtract, hread, hsubobj, hih.2, getPathD_cons, delPath]

theorem copyDest_cons (b : String) (tr' : List String) (clip cur : Js) :
    ∃ W, copyDest cur (b :: tr') clip = cur.setKey b W ∧
      ∀ cur₂ : Js, cur₂.read b = cur.read b →
        copyDest cur₂ (b :: tr') clip = cur₂.setKey b W := by
  cases tr' with
  | nil => exact ⟨clip, rfl, fun cur₂ _ => rfl⟩
  | cons k2 rest =>
    refine ⟨copyDest
      (if (cur.read b).isObjectT ∧ ¬ (cur.read b).isArrB then cur.read b else .obj [])
      (k2 :: rest) clip, rfl, fun cur₂ h => ?_⟩
    simp only [copyDest, h]

theorem pathResolves_setKey_ne (l : List (String × Js)) (a b : String) (W : Js)
    (fr' : List String) (hne : a ≠ b) :
    pathResolves ((Js.obj l).setKey b W) (a :: fr')
      = pathResolves (Js.obj l) (a :: fr') := by
  have h1 : ((Js.obj l).setKey b W).getOwn a = (Js.obj l).getOwn a :=
    getOwn_setKey_ne l b a W hne
  simp only [Js.setKey, pathResolves, Js.isJObj]
  simp only [Js.setKey] at h1
  rw [h1]

theorem unsetAtPath_resolves : ∀ (p : List String) (x : Js),
    pathResolves x p = true → p ≠ [] → p.getLast? ≠ some "" →
    unsetAtPath x p = delPath x p := by
  intro p
  induction p with
  | nil => intro x _ h; exact absurd rfl h
  | cons a rest ih =>
    intro x hres _ hlast
    obtain ⟨l, sub, rfl, hls, hres'⟩ := pathResolves_cons hres
    have hread := read_of_lookup hls
    cases rest with
    | nil =>
      have ha : a ≠ "" := by
        intro hh
        apply hlast
        simp [hh]
      simp [unsetAtPath, applyOperationAt, jsUnset, optTruthy, ha, Js.isObjectT, delPath]
    | cons a2 rest' =>
      have hlast' : (a2 :: rest').getLast? ≠ some "" := by
        rwa [List.getLast?_cons_cons] at hlast
      have hih := ih sub hres' (by simp) hlast'
      have hgl : (a :: a2 :: rest').getLast? = (a2 :: rest').getLast? :=
        List.getLast?_cons_cons ..
      simp only [unsetAtPath, List.dropLast_cons₂, hgl, applyOperationAt_cons_obj,
        hread, delPath]
      rw [show applyOperationAt (fun o => jsUnset o (a2 :: rest').getLast?)
            (a2 :: rest').dropLast sub = unsetAtPath sub (a2 :: rest') from rfl, hih]

theorem read_delPath_ne (l : List (String × Js)) (a b : String)
    (fr' : List String) (hne : a ≠ b) :
    (delPath (Js.obj l) (a :: fr')).read b = (Js.obj l).read b := by
  cases fr' with
  | nil =>
    simp [delPath, Js.read, getOwn_delKey_ne l a b hne.symm]
  | cons a2 fr'' =>
    simp [delPath, read_setKey_ne l a b _ hne.symm]

theorem delPath_setKey_ne (l : List (String × Js)) (a b : String) (W sub : Js)
    (fr' : List String) (hne : a ≠ b) (hls : lookupList l a = some sub) :
    delPath ((Js.obj l).setKey b W) (a :: fr')
      = (delPath (Js.obj l) (a :: fr')).setKey b W := by
  cases fr' with
  | nil =>
    exact delKey_setKey_ne l b a W hne.symm
  | cons a2 fr'' =>
    have hread := read_of_lookup hls
    have hreads : ((Js.obj l).setKey b W).read a = sub := by
      rw [read_setKey_ne l b a W hne, hread]
    simp only [delPath, hreads, hread]
    exact (setKey_comm_obj l a b (delPath sub (a2 :: fr'')) W hne (by simp [hls])).symm

/-- Duality at the leaf level, once trimming has separated the heads:
unsetting the source path on the copy's result equals the move. -/
theorem copy_unset_eq_move_base (root : Js) (fr tr : List String)
    (hhead : fr.head? ≠ tr.head?) (hfr : fr ≠ []) (htr : tr ≠ [])
    (hlast : fr.getLast? ≠ some "")
    (hres : pathResolves root fr = true) :
    unsetAtPath (jsCopy root fr tr true) fr = jsCopy root fr tr false := by
  obtain ⟨a, fr', rfl⟩ := List.exists_cons_of_ne_nil hfr
  obtain ⟨b, tr', rfl⟩ := List.exists_cons_of_ne_nil htr
  have hab : a ≠ b := by
    intro hh
    exact hhead (by rw [hh]; rfl)
  obtain ⟨l, sub, rfl, hls, hres'⟩ := pathResolves_cons hres
  have hext := copyExtract_resolves (a :: fr') (Js.obj l) (by simp) hres
  -- both sides of the copy loop
  have hcopy : jsCopy (Js.obj l) (a :: fr') (b :: tr') true
      = copyDest (Js.obj l) (b :: tr') (getPathD (Js.obj l) (a :: fr')) := by
    simp [jsCopy, Js.isObjectT, copyLoop, Ne.symm hab, hext.1]
  have hmove : jsCopy (Js.obj l) (a :: fr') (b :: tr') false
      = copyDest (delPath (Js.obj l) (a :: fr')) (b :: tr')
          (getPathD (Js.obj l) (a :: fr')) := by
    simp [jsCopy, Js.isObjectT, copyLoop, Ne.symm hab, hext.2]
  obtain ⟨W, hW, hWgen⟩ := copyDest_cons b tr' (getPathD (Js.obj l) (a :: fr')) (Js.obj l)
  have hmove' : jsCopy (Js.obj l) (a :: fr') (b :: tr') false
      = (delPath (Js.obj l) (a :: fr')).setKey b W := by
    rw [hmove, hWgen _ (read_delPath_ne l a b fr' hab)]
  have hres1 : pathResolves ((Js.obj l).setKey b W) (a :: fr') = true := by
    rw [pathResolves_setKey_ne l a b W fr' hab]
    exact hres
  rw [hcopy, hW,
    unsetAtPath_resolves (a :: fr') ((Js.obj l).setKey b W) hres1 (by simp) hlast,
    delPath_setKey_ne l a b W sub fr' hab hls, hmove']

/-- Duality through the common-prefix traversal. -/
theorem copy_unset_eq_move_core : ∀ (c : List String) (root : Js)
    (fr tr : List String),
    fr.head? ≠ tr.head? → fr ≠ [] → tr ≠ [] → fr.getLast? ≠ some "" →
    pathResolves root (c ++ fr) = true →
    unsetAtPath (applyOperationAt (fun o => jsCopy o fr tr true) c root) (c ++ fr)
      = applyOperationAt (fun o => jsCopy o fr tr false) c root := by
  intro c
  induction c with
  | nil =>
    intro root fr tr hhead hfr htr hlast hres
    simpa using copy_unset_eq_move_base root fr tr hhead hfr htr hlast (by simpa using hres)
  | cons k c' ih =>
    intro root fr tr hhead hfr htr hlast hres
    obtain ⟨l, sub, rfl, hls, hres'⟩ := pathResolves_cons (by simpa using hres)
    have hread := read_of_lookup hls
    have hne : c' ++ fr ≠ [] := by simp [hfr]
    obtain ⟨x, xs, hxxs⟩ := List.exists_cons_of_ne_nil hne
    have hdrop : ((k :: c') ++ fr).dropLast = k :: (c' ++ fr).dropLast := by
      simp only [List.cons_append]
      rw [hxxs]
      exact List.dropLast_cons₂ ..
    have hgl : ((k :: c') ++ fr).getLast? = (c' ++ fr).getLast? := by
      simp only [List.cons_append]
      rw [hxxs]
      exact List.getLast?_cons_cons ..
    have hstep : ∀ (keep : Bool),
        applyOperationAt (fun o => jsCopy o fr tr keep) (k :: c') (Js.obj l)
          = (Js.obj l).setKey k (applyOperationAt (fun o => jsCopy o fr tr keep) c' sub) := by
      intro keep
      simp [applyOperationAt, Js.isObjectT, hread]
    have hinner : unsetAtPath (applyOperationAt (fun o => jsCopy o fr tr true) c' sub)
        (c' ++ fr) = applyOperationAt (fun o => jsCopy o fr tr false) c' sub :=
      ih sub fr tr hhead hfr htr hlast hres'
    set X := applyOperationAt (fun o => jsCopy o fr tr true) c' sub with hXdef
    set Y := applyOperationAt (fun o => jsCopy o fr tr false) c' sub with hYdef
    have hsk : (Js.obj l).setKey k X = Js.obj (setList l k X) := rfl
    have hreadX : (Js.obj (setList l k X)).read k = X := by
      simp [Js.read, Js.getOwn, lookupList_setList_self]
    rw [hstep true, hstep false]
    show applyOperationAt (fun o => jsUnset o ((k :: c') ++ fr).getLast?)
        (((k :: c') ++ fr).dropLast) ((Js.obj l).setKey k X) = (Js.obj l).setKey k Y
    rw [hdrop, hgl, hsk, applyOperationAt_cons_obj, hreadX]
    rw [show applyOperationAt (fun o => jsUnset o (c' ++ fr).getLast?)
          ((c' ++ fr).dropLast) X = unsetAtPath X (c' ++ fr) from rfl, hinner]
    show Js.obj (setList (setList l k X) k Y) = Js.obj (setList l k Y)
    rw [setList_setList_self]

/-- C8 counterexample: the claim quantifies over all roots and paths where
`from` resolves; with `from = 'a'` a prefix of `to = 'a.b'`, the trimmed
source list is empty and the engine self-nests the subtree, so
copy-then-unset deletes everything while move keeps the self-nested
subtree. -/
theorem c8_duality_counterexample :
    pathResolves (.obj [("a", .obj [("x", .num (.int 1))])]) ["a"] = true ∧
    unsetAtPath
        (copyAtPath (.obj [("a", .obj [("x", .num (.int 1))])]) ["a"] ["a", "b"] true)
        ["a"] = .obj [] ∧
    copyAtPath (.obj [("a", .obj [("x", .num (.int 1))])]) ["a"] ["a", "b"] false
        = .obj [("a", .obj [("x", .num (.int 1)), ("b", .obj [("x", .num (.int 1))])])] ∧
    Js.obj ([] : List (String × Js))
        ≠ Js.obj [("a", Js.obj [("x", Js.num (.int 1)), ("b", Js.obj [("x", Js.num (.int 1))])])] := by
  exact ⟨rfl, rfl, rfl, by simp⟩

/-- C8 amended: the duality `unset(copy(root, f, t), f) = move(root, f, t)`
holds whenever neither path is a prefix of the other (both trimmed rests
nonempty), the source path resolves through plain objects, its last
segment is nonempty, and the root is `null`-free (the last hypothesis
keeps the statement within the pure model's faithful domain, where JS
would not throw on a property access through `null`). -/
theorem c8_move_copy_duality_amended (root : Js) (f t c fr tr : List String)
    (htrim : trimCommon f t = (c, fr, tr))
    (hfr : fr ≠ []) (htr : tr ≠ [])
    (hlast : fr.getLast? ≠ some "")
    (hres : pathResolves root f = true)
    (_hnf : nullFree root = true) :
    unsetAtPath (copyAtPath root f t true) f = copyAtPath root f t false := by
  have happ := (trimCommon_append f t).1
  rw [htrim] at happ
  have hhead := trimCommon_head_ne f t c fr tr htrim hfr htr
  have hres' : pathResolves root (c ++ fr) = true := by rw [happ]; exact hres
  have hcp : ∀ keep, copyAtPath root f t keep
      = applyOperationAt (fun o => jsCopy o fr tr keep) c root := by
    intro keep
    simp only [copyAtPath, htrim]
  rw [hcp true, hcp false, ← happ]
  exact copy_unset_eq_move_core c root fr tr hhead hfr htr hlast hres'

/-- C8 witness: sibling source and destination under the root. -/
theorem c8_move_copy_duality_amended_witness :
    unsetAtPath
        (copyAtPath (.obj [("p", .obj [("q", .num (.int 1))]), ("r", .num (.int 2))])
          ["p", "q"] ["r"] true) ["p", "q"]
      = copyAtPath (.obj [("p", .obj [("q", .num (.int 1))]), ("r", .num (.int 2))])
          ["p", "q"] ["r"] false :=
  c8_move_copy_duality_amended _ ["p", "q"] ["r"] [] ["p", "q"] ["r"] rfl
    (by simp) (by simp) (by simp) rfl rfl
